import Mathlib

/-!
# Module browser of Rack: filtering, facet availability, favourite scores, sorting

A shallow embedding of the algorithmic core of `src/app/ModuleBrowser.cpp`
(`modelScore`, `isModelVisible`, `stepFavoriteScore`, `get_default`,
`ModuleBrowser::refresh`, `BrandItem::onAction`, `TagItem::onAction`) and theorems
about it.

Conventions of the embedding.

* `std::string` is `String`, one character per `char`; `==` is equality and `<` the
  lexicographic order.
* A `float` is represented by the rational number it denotes, so comparisons are exact.
  NaN and the infinities have no representation: the scores come from the settings file
  and from `stepFavoriteScore`, which produces neither from finite scores.  The three
  arithmetic operations of `stepFavoriteScore` round their exact result to the nearest
  binary32 value, ties to even (`roundF32`).
* `std::map<K, V>` is the list of its entries; it is read with `mapFind`
  (`std::map::find`) and written with `mapIndexAdd` (`operator[]` followed by `+=`).
  The order of the entries in the list plays no part.
* `std::list::sort(comp)` is a stable sort (`listSort`).
* `string::fuzzyScore` and `string::lowercase` live in another translation unit;
  they are parameters (`StringLib`).
-/

namespace Rack

/-! ## Floating point -/

/-- Nearest integer to `x`, ties going to the even neighbour. -/
def roundHalfEven (x : ℚ) : ℤ :=
  let f := ⌊x⌋
  let r := x - f
  if r < 1 / 2 then f
  else if 1 / 2 < r then f + 1
  else if f % 2 = 0 then f else f + 1

/-- Round-to-nearest-even into a binary floating-point format with `prec` significand
bits and least normal exponent `emin` (gradual underflow below it).  Overflow to
infinity is not represented: the exponent is unbounded above. -/
def roundBinary (prec : ℕ) (emin : ℤ) (q : ℚ) : ℚ :=
  if q = 0 then 0
  else
    let e : ℤ := max (Int.log 2 |q|) emin
    let ulp : ℚ := 2 ^ (e - ((prec : ℤ) - 1))
    (roundHalfEven (q / ulp) : ℚ) * ulp

/-- Rounding to `float` (IEEE 754 binary32). -/
def roundF32 (q : ℚ) : ℚ := roundBinary 24 (-126) q

/-- Rounding to `double` (IEEE 754 binary64). -/
def roundF64 (q : ℚ) : ℚ := roundBinary 53 (-1022) q

/-! ## Data model -/

/-- The fields of `plugin::Plugin` read by the browser. -/
structure Plugin where
  slug : String
  name : String
  brand : String
deriving DecidableEq, Repr

/-- The fields of `plugin::Model` read by the browser; `plugin` stands for the
`model->plugin` pointer. -/
structure Model where
  plugin : Plugin
  slug : String
  name : String
  tags : List String
deriving DecidableEq, Repr

/-- The two functions of `string.hpp` called by `modelScore`.  Their definitions are
not part of `ModuleBrowser.cpp`. -/
structure StringLib where
  fuzzyScore : String → String → ℚ
  lowercase : String → String

/-- Key of `settings::favoriteScores`: `std::make_tuple(plugin slug, model slug)`. -/
abbrev FavoriteKey := String × String

/-- The entries of `settings::favoriteScores`. -/
abbrev FavoriteScores := List (FavoriteKey × ℚ)

/-- A `ModelBox` widget: its model and the `visible` flag of the widget. -/
structure ModelBox where
  model : Model
  visible : Bool
deriving DecidableEq, Repr

/-- A `BrandItem` menu item: its text and the `disabled` flag. -/
structure BrandItem where
  text : String
  disabled : Bool
deriving DecidableEq, Repr

/-- A `TagItem` menu item: its text and the `disabled` flag. -/
structure TagItem where
  text : String
  disabled : Bool
deriving DecidableEq, Repr

/-- The state of a `ModuleBrowser` that `refresh` reads or writes. -/
structure ModuleBrowser where
  search : String
  brand : String
  tag : String
  /-- Children of `modelContainer`. -/
  children : List ModelBox
  /-- Children of `sidebar->brandList`. -/
  brandList : List BrandItem
  /-- Children of `sidebar->tagList`. -/
  tagList : List TagItem
  brandLabel : String
  tagLabel : String
  modelLabel : String
  /-- Value of `modelScroll->offset`. -/
  scrollOffset : ℚ × ℚ
deriving DecidableEq, Repr

/-! ## Scoring and visibility -/

/-- The string `s` built by `modelScore` before it is lower-cased. -/
def searchText (model : Model) : String :=
  model.tags.foldl (fun s tag => (s ++ " ") ++ tag)
    ((((("" ++ model.plugin.brand) ++ " ") ++ model.name) ++ " ") ++ model.slug)

/-- Embedding of `modelScore`. -/
def modelScore (lib : StringLib) (model : Model) (search : String) : ℚ :=
  if search = "" then 1
  else lib.fuzzyScore (lib.lowercase (searchText model)) (lib.lowercase search)

/-- The tag loop of `isModelVisible`: the value of `found` after the loop. -/
def tagFound (tag : String) : List String → Bool
  | [] => false
  | modelTag :: rest => if modelTag = tag then true else tagFound tag rest

/-- Embedding of `isModelVisible`. -/
def isModelVisible (lib : StringLib) (model : Model) (search brand tag : String) : Bool :=
  if search ≠ "" ∧ modelScore lib model search ≤ 0 then false
  else if brand ≠ "" ∧ model.plugin.brand ≠ brand then false
  else if tag ≠ "" ∧ tagFound tag model.tags = false then false
  else true

/-! ## Favourite scores -/

/-- Lookup in a `std::map` (`find`): the value of the first entry with the key. -/
def mapFind {K V : Type} [DecidableEq K] (key : K) : List (K × V) → Option V
  | [] => none
  | e :: rest => if e.1 = key then some e.2 else mapFind key rest

/-- Embedding of `get_default`. -/
def get_default {K V : Type} [DecidableEq K] (m : List (K × V)) (key : K) (d : V) : V :=
  match mapFind key m with
  | none => d
  | some v => v

/-- Statement `m[key] += x` on a map of floats: `operator[]` inserts a zero entry when
the key is absent, then `x` is added in `float` arithmetic. -/
def mapIndexAdd {K : Type} [DecidableEq K] (key : K) (x : ℚ) : List (K × ℚ) → List (K × ℚ)
  | [] => [(key, roundF32 (0 + x))]
  | e :: rest =>
    if e.1 = key then (e.1, roundF32 (e.2 + x)) :: rest
    else e :: mapIndexAdd key x rest

/-- Value of `const float decayLambda = 0.1;`: the `double` literal converted to `float`. -/
def decayLambda : ℚ := roundF32 (roundF64 (1 / 10))

/-- Value of the `float` expression `1 - decayLambda`. -/
def decayFactor : ℚ := roundF32 (1 - decayLambda)

/-- Embedding of `stepFavoriteScore` on an explicit table. -/
def stepFavoriteScore (scores : FavoriteScores) (plugin model : String) : FavoriteScores :=
  let decayed := scores.map (fun it => (it.1, roundF32 (it.2 * decayFactor)))
  mapIndexAdd (plugin, model) 1 decayed

/-! ## Refresh -/

/-- The comparator passed to `children.sort` in `refresh`. -/
def sortLess (scores : FavoriteScores) (m1 m2 : ModelBox) : Bool :=
  let score1 := get_default scores (m1.model.plugin.slug, m1.model.slug) (0 : ℚ)
  let score2 := get_default scores (m2.model.plugin.slug, m2.model.slug) (0 : ℚ)
  if score1 ≠ score2 then decide (score1 > score2)
  else if m1.model.plugin.name ≠ m2.model.plugin.name then
    decide (m1.model.plugin.name < m2.model.plugin.name)
  else decide (m1.model.name < m2.model.name)

/-- The function `std::list::sort(comp)`: a stable sort, here by insertion: an element
is placed before the first one that does not precede it.  The theorems below use that
the result is a permutation, is ordered, and is the input itself when that is ordered. -/
def listSort {α : Type} (comp : α → α → Bool) (l : List α) : List α :=
  l.insertionSort (fun a b => ¬ comp b a = true)

/-- The lambda `hasModel` of `refresh`. -/
def hasModel (lib : StringLib) (filteredModels : List Model) (brand tag : String) : Bool :=
  filteredModels.any (fun model => isModelVisible lib model "" brand tag)

/-- Embedding of `ModuleBrowser::refresh`; `scores` is `settings::favoriteScores`.
The local map that the function fills when `search` is not empty is never read and is
left out.  The three counters are `int` in the source; they count list elements. -/
def ModuleBrowser.refresh (lib : StringLib) (scores : FavoriteScores) (b : ModuleBrowser) :
    ModuleBrowser :=
  let filtered := b.children.map (fun m =>
    { m with visible := isModelVisible lib m.model b.search b.brand b.tag })
  let sorted := listSort (sortLess scores) filtered
  let filteredModels :=
    (sorted.filter (fun m => isModelVisible lib m.model b.search "" "")).map (fun m => m.model)
  let brandList := b.brandList.map (fun item =>
    { item with disabled := !hasModel lib filteredModels item.text b.tag })
  let brandsLen := (brandList.filter (fun item => !item.disabled)).length
  let tagList := b.tagList.map (fun item =>
    { item with disabled := !hasModel lib filteredModels b.brand item.text })
  let tagsLen := (tagList.filter (fun item => !item.disabled)).length
  let modelsLen := (sorted.filter (fun w => w.visible)).length
  { b with
    scrollOffset := (0, 0)
    children := sorted
    brandList := brandList
    brandLabel := "Brands (" ++ toString brandsLen ++ ")"
    tagList := tagList
    tagLabel := "Tags (" ++ toString tagsLen ++ ")"
    modelLabel := "Modules (" ++ toString modelsLen ++ ")" }

/-! ## Actions -/

/-- Embedding of `BrandItem::onAction`: the new state of the browser that is the
ancestor of `item`. -/
def BrandItem.onAction (lib : StringLib) (scores : FavoriteScores) (item : BrandItem)
    (browser : ModuleBrowser) : ModuleBrowser :=
  ModuleBrowser.refresh lib scores
    (if browser.brand = item.text then { browser with brand := "" }
     else { browser with brand := item.text })

/-- Embedding of `TagItem::onAction`: the new state of the browser that is the ancestor
of `item`. -/
def TagItem.onAction (lib : StringLib) (scores : FavoriteScores) (item : TagItem)
    (browser : ModuleBrowser) : ModuleBrowser :=
  ModuleBrowser.refresh lib scores
    (if browser.tag = item.text then { browser with tag := "" }
     else { browser with tag := item.text })

/-! ## The specification's wording of the searchable text -/

/-- The searchable text as the specification words it: brand, name and slug joined by
single spaces, then every tag in stored order, each preceded by a single space. -/
def searchTextSpec (model : Model) : String :=
  String.join ([model.plugin.brand, " ", model.name, " ", model.slug]
    ++ model.tags.map (fun tag => " " ++ tag))

/-- The favourite score of an item as the specification words it: the value that the
table stores under the key (publisher slug, item slug), and 0 when the table has no
entry for that key.  The lookup is the library function `List.lookup`. -/
def favoriteScoreSpec (scores : FavoriteScores) (item : Model) : ℚ :=
  match List.lookup (item.plugin.slug, item.slug) scores with
  | some score => score
  | none => 0

/-- Favourite score of a box as the comparator reads it. -/
def favScore (scores : FavoriteScores) (m : ModelBox) : ℚ :=
  get_default scores (m.model.plugin.slug, m.model.slug) (0 : ℚ)

/-! ## Worked examples -/

/-- A stand-in for the string library in the worked examples: a query scores 1 when it
is a prefix of the text and 0 otherwise; lower-casing is per character. -/
def exampleLib : StringLib :=
  ⟨fun s query => if query.isPrefixOf s then 1 else 0, fun s => s.map Char.toLower⟩

/-- The catalogue of three publishers `A:[tag1]`, `B:[tag2]`, `C:[tag1,tag2]` with tag
`tag1` selected and no other filter. -/
def facetExample : ModuleBrowser :=
  { search := ""
    brand := ""
    tag := "tag1"
    children := [
      ⟨⟨⟨"a", "A", "A"⟩, "a1", "A1", ["tag1"]⟩, true⟩,
      ⟨⟨⟨"b", "B", "B"⟩, "b1", "B1", ["tag2"]⟩, true⟩,
      ⟨⟨⟨"c", "C", "C"⟩, "c1", "C1", ["tag1", "tag2"]⟩, true⟩]
    brandList := [⟨"A", false⟩, ⟨"B", false⟩, ⟨"C", false⟩]
    tagList := [⟨"tag1", false⟩, ⟨"tag2", false⟩]
    brandLabel := ""
    tagLabel := ""
    modelLabel := ""
    scrollOffset := (0, 0) }

/-- The catalogue `(Acme, Filter, acme-filter, [filter])`, `(Acme, VCO, acme-vco,
[oscillator])`, `(Beta, Filter2, beta-filter2, [filter])` with tag `filter` selected,
no search text and no brand selected. -/
def acmeExample : ModuleBrowser :=
  { search := ""
    brand := ""
    tag := "filter"
    children := [
      ⟨⟨⟨"acme", "Acme", "Acme"⟩, "acme-filter", "Filter", ["filter"]⟩, true⟩,
      ⟨⟨⟨"acme", "Acme", "Acme"⟩, "acme-vco", "VCO", ["oscillator"]⟩, true⟩,
      ⟨⟨⟨"beta", "Beta", "Beta"⟩, "beta-filter2", "Filter2", ["filter"]⟩, true⟩]
    brandList := [⟨"Acme", false⟩, ⟨"Beta", false⟩]
    tagList := [⟨"filter", false⟩, ⟨"oscillator", false⟩]
    brandLabel := ""
    tagLabel := ""
    modelLabel := ""
    scrollOffset := (0, 0) }

/-- A catalogue with a publisher whose brand is the empty string: the brand list holds
the candidate with empty text; tag `t1` is selected. -/
def emptyBrandExample : ModuleBrowser :=
  { search := ""
    brand := ""
    tag := "t1"
    children := [
      ⟨⟨⟨"p1", "P1", "X"⟩, "m1", "M1", ["t1"]⟩, true⟩,
      ⟨⟨⟨"p2", "P2", ""⟩, "m2", "M2", ["t2"]⟩, true⟩]
    brandList := [⟨"", false⟩, ⟨"X", false⟩]
    tagList := [⟨"t1", false⟩, ⟨"t2", false⟩]
    brandLabel := ""
    tagLabel := ""
    modelLabel := ""
    scrollOffset := (0, 0) }

/-- A catalogue whose tag list holds a candidate with empty text; no filter is set. -/
def emptyTagExample : ModuleBrowser :=
  { search := ""
    brand := ""
    tag := ""
    children := [⟨⟨⟨"p1", "P1", "X"⟩, "m1", "M1", ["t1"]⟩, true⟩]
    brandList := [⟨"X", false⟩]
    tagList := [⟨"", false⟩, ⟨"t1", false⟩]
    brandLabel := ""
    tagLabel := ""
    modelLabel := ""
    scrollOffset := (0, 0) }

/-- The item `(Acme, VCO, acme-vco, [oscillator])` of `acmeExample`. -/
def acmeVco : Model :=
  ⟨⟨"acme", "Acme", "Acme"⟩, "acme-vco", "VCO", ["oscillator"]⟩

/-- The item `(Acme, Filter, acme-filter, [filter])` of `acmeExample`. -/
def acmeFilter : Model :=
  ⟨⟨"acme", "Acme", "Acme"⟩, "acme-filter", "Filter", ["filter"]⟩

/-- The item `(Beta, Filter2, beta-filter2, [filter])` of `acmeExample`. -/
def betaFilter2 : Model :=
  ⟨⟨"beta", "Beta", "Beta"⟩, "beta-filter2", "Filter2", ["filter"]⟩

/-! # Theorems -/

/-! ## Visibility and scoring -/

theorem tagFound_iff (tag : String) (tags : List String) :
    tagFound tag tags = true ↔ tag ∈ tags := by
  induction tags with
  | nil => simp [tagFound]
  | cons t rest ih =>
    by_cases h : t = tag
    · simp [tagFound, h]
    · have h2 : ¬ tag = t := fun e => h e.symm
      simp [tagFound, h, h2, ih]

theorem foldl_append_acc (l : List String) (acc : String) :
    l.foldl (fun r s => r ++ s) acc = acc ++ String.join l := by
  induction l generalizing acc with
  | nil => simp [String.join]
  | cons t rest ih =>
    simp only [List.foldl_cons, String.join]
    rw [ih, ih ("" ++ t)]
    simp [String.append_assoc]

theorem stringJoin_cons (a : String) (l : List String) :
    String.join (a :: l) = a ++ String.join l := by
  have h : String.join (a :: l) = l.foldl (fun r s => r ++ s) ("" ++ a) := rfl
  rw [h, foldl_append_acc]
  simp

theorem foldl_tags_eq (tags : List String) (acc : String) :
    tags.foldl (fun s tag => (s ++ " ") ++ tag) acc
      = acc ++ String.join (tags.map (fun tag => " " ++ tag)) := by
  induction tags generalizing acc with
  | nil => simp [String.join]
  | cons t rest ih =>
    simp only [List.foldl_cons, List.map_cons]
    rw [ih, stringJoin_cons]
    simp [String.append_assoc]

theorem searchText_eq_spec (model : Model) : searchText model = searchTextSpec model := by
  unfold searchText searchTextSpec
  rw [foldl_tags_eq]
  simp only [List.cons_append, List.nil_append, stringJoin_cons]
  simp [String.append_assoc]

theorem isModelVisible_eq_true_iff (lib : StringLib) (model : Model)
    (search brand tag : String) :
    isModelVisible lib model search brand tag = true ↔
      (search = "" ∨ 0 < modelScore lib model search) ∧
      (brand = "" ∨ model.plugin.brand = brand) ∧
      (tag = "" ∨ tag ∈ model.tags) := by
  unfold isModelVisible
  rw [← tagFound_iff]
  by_cases hs : search = "" <;> by_cases hb : brand = "" <;> by_cases ht : tag = "" <;>
    simp [hs, hb, ht, not_le]

/-- C1: `isModelVisible` returns true exactly when the search constraint (search empty
or a positive `modelScore`), the brand constraint (brand filter empty or equal to the
publisher brand) and the tag constraint (tag filter empty or a member of the item's
tags) all hold; with all three filters empty it returns true for every item. -/
theorem isModelVisible_iff (lib : StringLib) (model : Model) (search brand tag : String) :
    (isModelVisible lib model search brand tag = true ↔
      (search = "" ∨ 0 < modelScore lib model search) ∧
      (brand = "" ∨ model.plugin.brand = brand) ∧
      (tag = "" ∨ tag ∈ model.tags)) ∧
    isModelVisible lib model "" "" "" = true :=
  ⟨isModelVisible_eq_true_iff lib model search brand tag,
    (isModelVisible_eq_true_iff lib model "" "" "").mpr ⟨Or.inl rfl, Or.inl rfl, Or.inl rfl⟩⟩

/-- C10: `modelScore` of the empty query is 1 for every item, and for a query that is
not empty it is the fuzzy score of the lower-cased searchable text (brand, name, slug
joined by single spaces, then each tag preceded by a space) against the lower-cased
query. -/
theorem modelScore_spec (lib : StringLib) (model : Model) (query : String)
    (hq : query ≠ "") :
    modelScore lib model "" = 1 ∧
    modelScore lib model query
      = lib.fuzzyScore (lib.lowercase (searchTextSpec model)) (lib.lowercase query) := by
  constructor
  · simp [modelScore]
  · simp [modelScore, hq, searchText_eq_spec]


/-! ## The sort comparator -/

theorem sortLess_iff (scores : FavoriteScores) (a b : ModelBox) :
    sortLess scores a b = true ↔
      favScore scores b < favScore scores a ∨
      (favScore scores a = favScore scores b ∧
        (a.model.plugin.name < b.model.plugin.name ∨
          (a.model.plugin.name = b.model.plugin.name ∧ a.model.name < b.model.name))) := by
  unfold sortLess favScore
  by_cases hs : get_default scores (a.model.plugin.slug, a.model.slug) (0 : ℚ)
      = get_default scores (b.model.plugin.slug, b.model.slug) (0 : ℚ)
  · by_cases hp : a.model.plugin.name = b.model.plugin.name
    · simp [hs, hp]
    · simp [hs, hp]
  · simp [hs]

theorem not_sortLess_iff (scores : FavoriteScores) (a b : ModelBox) :
    ¬ sortLess scores b a = true ↔
      favScore scores b ≤ favScore scores a ∧
      (favScore scores a = favScore scores b →
        a.model.plugin.name ≤ b.model.plugin.name ∧
        (a.model.plugin.name = b.model.plugin.name → a.model.name ≤ b.model.name)) := by
  rw [sortLess_iff]
  constructor
  · intro h
    push_neg at h
    obtain ⟨h1, h2⟩ := h
    refine ⟨h1, fun he => ?_⟩
    obtain ⟨h3, h4⟩ := h2 he.symm
    exact ⟨h3, fun hp => h4 hp.symm⟩
  · rintro ⟨h1, h2⟩ h
    rcases h with h | ⟨he, h⟩
    · exact absurd h (not_lt.mpr h1)
    · obtain ⟨h3, h4⟩ := h2 he.symm
      rcases h with h | ⟨hp, h⟩
      · exact absurd h (not_lt.mpr h3)
      · exact absurd h (not_lt.mpr (h4 hp.symm))

theorem sortLess_irrefl (scores : FavoriteScores) (a : ModelBox) :
    sortLess scores a a = false := by
  have h : ¬ sortLess scores a a = true := by
    rw [sortLess_iff]; simp
  simpa using h

theorem sortLess_trans (scores : FavoriteScores) (a b c : ModelBox)
    (hab : sortLess scores a b = true) (hbc : sortLess scores b c = true) :
    sortLess scores a c = true := by
  rw [sortLess_iff] at *
  rcases hab with h1 | ⟨e1, h1⟩
  · rcases hbc with h2 | ⟨e2, h2⟩
    · exact Or.inl (lt_trans h2 h1)
    · exact Or.inl (e2 ▸ h1)
  · rcases hbc with h2 | ⟨e2, h2⟩
    · exact Or.inl (e1 ▸ h2)
    · refine Or.inr ⟨e1.trans e2, ?_⟩
      rcases h1 with h1 | ⟨p1, h1⟩
      · rcases h2 with h2 | ⟨p2, h2⟩
        · exact Or.inl (lt_trans h1 h2)
        · exact Or.inl (p2 ▸ h1)
      · rcases h2 with h2 | ⟨p2, h2⟩
        · exact Or.inl (p1 ▸ h2)
        · exact Or.inr ⟨p1.trans p2, lt_trans h1 h2⟩

theorem incomparable_iff (scores : FavoriteScores) (a b : ModelBox) :
    (sortLess scores a b = false ∧ sortLess scores b a = false) ↔
      (favScore scores a = favScore scores b ∧
        a.model.plugin.name = b.model.plugin.name ∧ a.model.name = b.model.name) := by
  have h1 := not_sortLess_iff scores b a
  have h2 := not_sortLess_iff scores a b
  simp only [Bool.not_eq_true] at h1 h2
  rw [h1, h2]
  constructor
  · rintro ⟨⟨ha, hb⟩, ⟨hc, hd⟩⟩
    have hs : favScore scores a = favScore scores b := le_antisymm ha hc
    have hp : a.model.plugin.name = b.model.plugin.name :=
      le_antisymm (hd hs).1 (hb hs.symm).1
    exact ⟨hs, hp, le_antisymm ((hd hs).2 hp) ((hb hs.symm).2 hp.symm)⟩
  · rintro ⟨hs, hp, hn⟩
    exact ⟨⟨hs.le, fun _ => ⟨hp.ge, fun _ => hn.ge⟩⟩, ⟨hs.ge, fun _ => ⟨hp.le, fun _ => hn.le⟩⟩⟩

/-- C6: for every favourite-score table the comparator of `refresh` is a strict weak
ordering: irreflexive, transitive, with a transitive incomparability relation; two
items are incomparable exactly when they agree on favourite score, publisher name and
item name. -/
theorem sortLess_strictWeakOrder (scores : FavoriteScores) :
    (∀ a, sortLess scores a a = false) ∧
    (∀ a b c, sortLess scores a b = true → sortLess scores b c = true →
      sortLess scores a c = true) ∧
    (∀ a b c, (sortLess scores a b = false ∧ sortLess scores b a = false) →
      (sortLess scores b c = false ∧ sortLess scores c b = false) →
      (sortLess scores a c = false ∧ sortLess scores c a = false)) ∧
    (∀ a b, (sortLess scores a b = false ∧ sortLess scores b a = false) ↔
      (get_default scores (a.model.plugin.slug, a.model.slug) (0 : ℚ)
          = get_default scores (b.model.plugin.slug, b.model.slug) (0 : ℚ) ∧
        a.model.plugin.name = b.model.plugin.name ∧ a.model.name = b.model.name)) := by
  refine ⟨sortLess_irrefl scores, sortLess_trans scores, ?_, incomparable_iff scores⟩
  intro a b c hab hbc
  rw [incomparable_iff] at *
  exact ⟨hab.1.trans hbc.1, hab.2.1.trans hbc.2.1, hab.2.2.trans hbc.2.2⟩

/-! ## Sorting -/

theorem sortRel_total (scores : FavoriteScores) (a b : ModelBox) :
    ¬ sortLess scores b a = true ∨ ¬ sortLess scores a b = true := by
  by_cases h : sortLess scores b a = true
  · right
    intro h2
    have h3 := sortLess_trans scores a b a h2 h
    rw [sortLess_irrefl] at h3
    exact Bool.false_ne_true h3
  · exact Or.inl h

theorem sortRel_trans (scores : FavoriteScores) (a b c : ModelBox)
    (hab : ¬ sortLess scores b a = true) (hbc : ¬ sortLess scores c b = true) :
    ¬ sortLess scores c a = true := by
  rw [not_sortLess_iff] at *
  obtain ⟨h1, h2⟩ := hab
  obtain ⟨h3, h4⟩ := hbc
  refine ⟨le_trans h3 h1, fun he => ?_⟩
  have e1 : favScore scores a = favScore scores b := le_antisymm (he ▸ h3) h1
  have e2 : favScore scores b = favScore scores c := e1 ▸ he
  obtain ⟨p1, n1⟩ := h2 e1
  obtain ⟨p2, n2⟩ := h4 e2
  refine ⟨le_trans p1 p2, fun hp => ?_⟩
  have q1 : a.model.plugin.name = b.model.plugin.name := le_antisymm p1 (hp ▸ p2)
  have q2 : b.model.plugin.name = c.model.plugin.name := q1 ▸ hp
  exact le_trans (n1 q1) (n2 q2)

theorem listSort_perm {α : Type} (comp : α → α → Bool) (l : List α) :
    (listSort comp l).Perm l :=
  List.perm_insertionSort _ l

theorem listSort_sorted (scores : FavoriteScores) (l : List ModelBox) :
    (listSort (sortLess scores) l).Pairwise (fun a b => ¬ sortLess scores b a = true) := by
  haveI : IsTotal ModelBox (fun a b => ¬ sortLess scores b a = true) :=
    ⟨sortRel_total scores⟩
  haveI : IsTrans ModelBox (fun a b => ¬ sortLess scores b a = true) :=
    ⟨sortRel_trans scores⟩
  exact List.sorted_insertionSort _ l

theorem listSort_eq_self {α : Type} (comp : α → α → Bool) (l : List α)
    (h : l.Pairwise (fun a b => ¬ comp b a = true)) : listSort comp l = l :=
  List.Sorted.insertionSort_eq h

theorem listSort_idem (scores : FavoriteScores) (l : List ModelBox) :
    listSort (sortLess scores) (listSort (sortLess scores) l) = listSort (sortLess scores) l :=
  listSort_eq_self _ _ (listSort_sorted scores l)

/-- Sorting boxes and then reading their models gives the same list whatever the
`visible` flags are. -/
theorem listSort_models (scores : FavoriteScores) (l1 l2 : List ModelBox)
    (h : l1.map (fun m => m.model) = l2.map (fun m => m.model)) :
    (listSort (sortLess scores) l1).map (fun m => m.model)
      = (listSort (sortLess scores) l2).map (fun m => m.model) := by
  have key : ∀ l : List ModelBox,
      (listSort (sortLess scores) l).map (fun m => m.model)
        = (l.map (fun m => m.model)).insertionSort
            (fun x y : Model => ¬ sortLess scores ⟨y, false⟩ ⟨x, false⟩ = true) := by
    intro l
    unfold listSort
    exact List.map_insertionSort (fun a b : ModelBox => ¬ sortLess scores b a = true)
      (fun x y : Model => ¬ sortLess scores ⟨y, false⟩ ⟨x, false⟩ = true)
      (fun m => m.model) l (fun a _ b _ => Iff.rfl)
  rw [key l1, key l2, h]

theorem refresh_children (lib : StringLib) (scores : FavoriteScores) (b : ModuleBrowser) :
    (ModuleBrowser.refresh lib scores b).children
      = listSort (sortLess scores) (b.children.map (fun m =>
          { m with visible := isModelVisible lib m.model b.search b.brand b.tag })) := rfl

/-- On the favourite-score table the embedded `std::map::find` is the library lookup
of the first entry with the key. -/
theorem mapFind_eq_lookup (key : FavoriteKey) (scores : FavoriteScores) :
    mapFind key scores = List.lookup key scores := by
  induction scores with
  | nil => rfl
  | cons e rest ih =>
    obtain ⟨k, v⟩ := e
    by_cases h : k = key
    · subst h
      simp [mapFind, List.lookup]
    · have h2 : (key == k) = false := by
        simpa using fun e2 : key = k => h e2.symm
      simp only [mapFind, h, if_false, List.lookup, h2]
      exact ih

/-- The embedded `get_default` on the favourite-score table is the lookup of the
specification: the stored value of the key, the default when the key has no entry. -/
theorem get_default_eq_lookup (scores : FavoriteScores) (key : FavoriteKey) (d : ℚ) :
    get_default scores key d = (match List.lookup key scores with
      | some score => score
      | none => d) := by
  unfold get_default
  rw [mapFind_eq_lookup]
  cases List.lookup key scores <;> rfl

theorem favScore_eq_spec (scores : FavoriteScores) (m : ModelBox) :
    favScore scores m = favoriteScoreSpec scores m.model :=
  get_default_eq_lookup scores _ 0

/-- C5: the sort step of `refresh` yields a permutation of the items in which every
item placed before another has a favourite score at least as large, on equal scores a
publisher name at most as large, and on equal publisher names too an item name at most
as large; the score of an item is the value the table stores under (publisher slug,
item slug) and 0 when the table has no such entry (`favoriteScoreSpec`); the order of
the items is the same for every search, brand and tag filter. -/
theorem refresh_sort_spec (lib : StringLib) (scores : FavoriteScores) (b : ModuleBrowser) :
    ((ModuleBrowser.refresh lib scores b).children.map (fun m => m.model)).Perm
        (b.children.map (fun m => m.model)) ∧
    ((ModuleBrowser.refresh lib scores b).children.map (fun m => m.model)).Pairwise (fun x y =>
        favoriteScoreSpec scores y ≤ favoriteScoreSpec scores x ∧
        (favoriteScoreSpec scores x = favoriteScoreSpec scores y →
          x.plugin.name ≤ y.plugin.name ∧
          (x.plugin.name = y.plugin.name → x.name ≤ y.name))) ∧
    (∀ search brand tag : String,
      (ModuleBrowser.refresh lib scores { b with search := search, brand := brand, tag := tag }).children.map
          (fun m => m.model)
        = (ModuleBrowser.refresh lib scores b).children.map (fun m => m.model)) := by
  refine ⟨?_, ?_, ?_⟩
  · rw [refresh_children]
    have h := (listSort_perm (sortLess scores) (b.children.map (fun m =>
      ({ m with visible := isModelVisible lib m.model b.search b.brand b.tag } : ModelBox)))).map
      (fun m => m.model)
    simpa [List.map_map, Function.comp_def] using h
  · rw [refresh_children, List.pairwise_map]
    refine (listSort_sorted scores _).imp ?_
    intro x y hxy
    have h := (not_sortLess_iff scores x y).mp hxy
    rw [favScore_eq_spec, favScore_eq_spec] at h
    exact h
  · intro search brand tag
    rw [refresh_children, refresh_children]
    apply listSort_models
    simp [List.map_map, Function.comp_def]

/-- C5, worked example: in `acmeExample` with the single favourite score 1 stored for
`beta/beta-filter2`, `refresh` puts `beta-filter2` first and orders the two unscored
items by name; with the empty table the order is by publisher name, then item name.
The scores read by `favoriteScoreSpec` are 1, 0 and 0. -/
theorem refresh_sort_spec_witness :
    (ModuleBrowser.refresh exampleLib [(("beta", "beta-filter2"), 1)] acmeExample).children.map
        (fun m => m.model) = [betaFilter2, acmeFilter, acmeVco] ∧
    (ModuleBrowser.refresh exampleLib [] acmeExample).children.map (fun m => m.model)
      = [acmeFilter, acmeVco, betaFilter2] ∧
    favoriteScoreSpec [(("beta", "beta-filter2"), 1)] betaFilter2 = 1 ∧
    favoriteScoreSpec [(("beta", "beta-filter2"), 1)] acmeFilter = 0 ∧
    favoriteScoreSpec [(("beta", "beta-filter2"), 1)] acmeVco = 0 ∧
    [betaFilter2, acmeFilter, acmeVco].Pairwise (fun x y =>
        favoriteScoreSpec [(("beta", "beta-filter2"), 1)] y
          ≤ favoriteScoreSpec [(("beta", "beta-filter2"), 1)] x ∧
        (favoriteScoreSpec [(("beta", "beta-filter2"), 1)] x
            = favoriteScoreSpec [(("beta", "beta-filter2"), 1)] y →
          x.plugin.name ≤ y.plugin.name ∧
          (x.plugin.name = y.plugin.name → x.name ≤ y.name))) := by
  have h1 : (ModuleBrowser.refresh exampleLib [(("beta", "beta-filter2"), 1)]
      acmeExample).children.map (fun m => m.model) = [betaFilter2, acmeFilter, acmeVco] := by
    simp [ModuleBrowser.refresh, acmeExample, listSort, sortLess, get_default, mapFind,
      isModelVisible, tagFound, modelScore, betaFilter2, acmeFilter, acmeVco]
    decide
  have h2 : (ModuleBrowser.refresh exampleLib [] acmeExample).children.map (fun m => m.model)
      = [acmeFilter, acmeVco, betaFilter2] := by
    simp [ModuleBrowser.refresh, acmeExample, listSort, sortLess, get_default, mapFind,
      isModelVisible, tagFound, modelScore, betaFilter2, acmeFilter, acmeVco]
    decide
  have h := (refresh_sort_spec exampleLib [(("beta", "beta-filter2"), 1)] acmeExample).2.1
  rw [h1] at h
  exact ⟨h1, h2, by decide, by decide, by decide, h⟩

/-! ## Refresh: projections -/

theorem ModuleBrowser.eq_of_fields (a b : ModuleBrowser)
    (h1 : a.search = b.search) (h2 : a.brand = b.brand) (h3 : a.tag = b.tag)
    (h4 : a.children = b.children) (h5 : a.brandList = b.brandList)
    (h6 : a.tagList = b.tagList) (h7 : a.brandLabel = b.brandLabel)
    (h8 : a.tagLabel = b.tagLabel) (h9 : a.modelLabel = b.modelLabel)
    (h10 : a.scrollOffset = b.scrollOffset) : a = b := by
  cases a; cases b; simp_all

/-- The brand items after `refresh`; the first argument of `hasModel` is the list
`filteredModels`. -/
theorem refresh_brandList (lib : StringLib) (scores : FavoriteScores) (b : ModuleBrowser) :
    (ModuleBrowser.refresh lib scores b).brandList
      = b.brandList.map (fun item =>
          { item with disabled := !(hasModel lib
              (((ModuleBrowser.refresh lib scores b).children.filter
                (fun m => isModelVisible lib m.model b.search "" "")).map (fun m => m.model))
              item.text b.tag) }) := rfl

theorem refresh_tagList (lib : StringLib) (scores : FavoriteScores) (b : ModuleBrowser) :
    (ModuleBrowser.refresh lib scores b).tagList
      = b.tagList.map (fun item =>
          { item with disabled := !(hasModel lib
              (((ModuleBrowser.refresh lib scores b).children.filter
                (fun m => isModelVisible lib m.model b.search "" "")).map (fun m => m.model))
              b.brand item.text) }) := rfl

theorem refresh_brandLabel (lib : StringLib) (scores : FavoriteScores) (b : ModuleBrowser) :
    (ModuleBrowser.refresh lib scores b).brandLabel
      = "Brands (" ++ toString
          ((ModuleBrowser.refresh lib scores b).brandList.filter (fun item => !item.disabled)).length
        ++ ")" := rfl

theorem refresh_tagLabel (lib : StringLib) (scores : FavoriteScores) (b : ModuleBrowser) :
    (ModuleBrowser.refresh lib scores b).tagLabel
      = "Tags (" ++ toString
          ((ModuleBrowser.refresh lib scores b).tagList.filter (fun item => !item.disabled)).length
        ++ ")" := rfl

theorem refresh_modelLabel (lib : StringLib) (scores : FavoriteScores) (b : ModuleBrowser) :
    (ModuleBrowser.refresh lib scores b).modelLabel
      = "Modules (" ++ toString
          ((ModuleBrowser.refresh lib scores b).children.filter (fun w => w.visible)).length
        ++ ")" := rfl

/-- After `refresh` every child carries the visibility computed from the state. -/
theorem refresh_children_visible (lib : StringLib) (scores : FavoriteScores)
    (b : ModuleBrowser) (m : ModelBox) (hm : m ∈ (ModuleBrowser.refresh lib scores b).children) :
    m.visible = isModelVisible lib m.model b.search b.brand b.tag := by
  rw [refresh_children] at hm
  have h := (listSort_perm _ _).mem_iff.mp hm
  obtain ⟨m0, _, rfl⟩ := List.mem_map.mp h
  rfl

theorem refresh_children_idem (lib : StringLib) (scores : FavoriteScores)
    (b : ModuleBrowser) :
    (ModuleBrowser.refresh lib scores (ModuleBrowser.refresh lib scores b)).children = (ModuleBrowser.refresh lib scores b).children := by
  have hmap : (ModuleBrowser.refresh lib scores b).children.map (fun m =>
      ({ m with visible := isModelVisible lib m.model b.search b.brand b.tag } : ModelBox))
      = (ModuleBrowser.refresh lib scores b).children := by
    conv_rhs => rw [← List.map_id (ModuleBrowser.refresh lib scores b).children]
    apply List.map_congr_left
    intro m hm
    have hv := refresh_children_visible lib scores b m hm
    cases m
    simp_all
  rw [refresh_children lib scores (ModuleBrowser.refresh lib scores b)]
  show listSort (sortLess scores) ((ModuleBrowser.refresh lib scores b).children.map (fun m =>
      ({ m with visible := isModelVisible lib m.model b.search b.brand b.tag } : ModelBox)))
    = (ModuleBrowser.refresh lib scores b).children
  rw [hmap, refresh_children]
  exact listSort_idem scores _

/-- C7: `refresh` is idempotent: a second run with the same state and the same
favourite-score table reproduces the whole snapshot (item order, visible flags, brand
and tag disabled flags, and the three count labels). -/
theorem refresh_idempotent (lib : StringLib) (scores : FavoriteScores) (b : ModuleBrowser) :
    ModuleBrowser.refresh lib scores (ModuleBrowser.refresh lib scores b) = ModuleBrowser.refresh lib scores b := by
  have hc := refresh_children_idem lib scores b
  have hb : (ModuleBrowser.refresh lib scores (ModuleBrowser.refresh lib scores b)).brandList
      = (ModuleBrowser.refresh lib scores b).brandList := by
    rw [refresh_brandList lib scores (ModuleBrowser.refresh lib scores b), hc]
    show List.map _ (ModuleBrowser.refresh lib scores b).brandList = _
    rw [refresh_brandList lib scores b, List.map_map]
    rfl
  have ht : (ModuleBrowser.refresh lib scores (ModuleBrowser.refresh lib scores b)).tagList
      = (ModuleBrowser.refresh lib scores b).tagList := by
    rw [refresh_tagList lib scores (ModuleBrowser.refresh lib scores b), hc]
    show List.map _ (ModuleBrowser.refresh lib scores b).tagList = _
    rw [refresh_tagList lib scores b, List.map_map]
    rfl
  apply ModuleBrowser.eq_of_fields
  · rfl
  · rfl
  · rfl
  · exact hc
  · exact hb
  · exact ht
  · rw [refresh_brandLabel, hb, ← refresh_brandLabel]
  · rw [refresh_tagLabel, ht, ← refresh_tagLabel]
  · rw [refresh_modelLabel, hc, ← refresh_modelLabel]
  · rfl

/-! ## Facet availability -/

theorem mem_refresh_children (lib : StringLib) (scores : FavoriteScores) (b : ModuleBrowser)
    (model : Model) :
    (∃ m ∈ (ModuleBrowser.refresh lib scores b).children, m.model = model)
      ↔ ∃ w ∈ b.children, w.model = model := by
  rw [refresh_children]
  constructor
  · rintro ⟨m, hm, rfl⟩
    have h := (listSort_perm _ _).mem_iff.mp hm
    obtain ⟨w, hw, rfl⟩ := List.mem_map.mp h
    exact ⟨w, hw, rfl⟩
  · rintro ⟨w, hw, rfl⟩
    refine ⟨{ w with visible := isModelVisible lib w.model b.search b.brand b.tag }, ?_, rfl⟩
    exact (listSort_perm _ _).mem_iff.mpr (List.mem_map.mpr ⟨w, hw, rfl⟩)

/-- The value of `hasModel(brand, tag)` inside `refresh`, in terms of the children the
browser had before the call. -/
theorem hasModel_refresh (lib : StringLib) (scores : FavoriteScores) (b : ModuleBrowser)
    (brand tag : String) :
    hasModel lib
        (((ModuleBrowser.refresh lib scores b).children.filter
          (fun m => isModelVisible lib m.model b.search "" "")).map (fun m => m.model))
        brand tag = true
      ↔ ∃ w ∈ b.children, isModelVisible lib w.model b.search "" "" = true ∧
          (brand = "" ∨ w.model.plugin.brand = brand) ∧ (tag = "" ∨ tag ∈ w.model.tags) := by
  unfold hasModel
  rw [List.any_eq_true]
  constructor
  · rintro ⟨model, hmem, hvis⟩
    obtain ⟨m, hm, rfl⟩ := List.mem_map.mp hmem
    obtain ⟨hm1, hm2⟩ := List.mem_filter.mp hm
    obtain ⟨w, hw, hwm⟩ := (mem_refresh_children lib scores b m.model).mp ⟨m, hm1, rfl⟩
    refine ⟨w, hw, ?_, ?_⟩
    · rw [hwm]; exact hm2
    · rw [hwm]
      have h := (isModelVisible_eq_true_iff lib m.model "" brand tag).mp hvis
      exact h.2
  · rintro ⟨w, hw, h1, h2⟩
    obtain ⟨m, hm, hmw⟩ := (mem_refresh_children lib scores b w.model).mpr ⟨w, hw, rfl⟩
    refine ⟨m.model, List.mem_map.mpr ⟨m, List.mem_filter.mpr ⟨hm, ?_⟩, rfl⟩, ?_⟩
    · rw [hmw]; exact h1
    · rw [hmw]
      exact (isModelVisible_eq_true_iff lib w.model "" brand tag).mpr ⟨Or.inl rfl, h2⟩

theorem hasModel_refresh_congr (lib : StringLib) (scores : FavoriteScores)
    (b1 b2 : ModuleBrowser) (hc : b1.children = b2.children) (hs : b1.search = b2.search)
    (brand tag : String) :
    hasModel lib
        (((ModuleBrowser.refresh lib scores b1).children.filter
          (fun m => isModelVisible lib m.model b1.search "" "")).map (fun m => m.model))
        brand tag
      = hasModel lib
        (((ModuleBrowser.refresh lib scores b2).children.filter
          (fun m => isModelVisible lib m.model b2.search "" "")).map (fun m => m.model))
        brand tag := by
  rw [Bool.eq_iff_iff, hasModel_refresh, hasModel_refresh, hc, hs]

/-- C3 (amended): `refresh` keeps the brand candidates and enables a candidate exactly
when some catalogue item passes the search-only filter, satisfies the current tag
filter and, unless the candidate text is empty, has that text as publisher brand; an
empty candidate places no brand constraint.  The flags do not depend on the selected
brand. -/
theorem refresh_brand_enabled (lib : StringLib) (scores : FavoriteScores)
    (b : ModuleBrowser) :
    (ModuleBrowser.refresh lib scores b).brandList.map (fun item => item.text)
        = b.brandList.map (fun item => item.text) ∧
    (∀ item ∈ (ModuleBrowser.refresh lib scores b).brandList,
      (item.disabled = false ↔
        ∃ w ∈ b.children, isModelVisible lib w.model b.search "" "" = true ∧
          (b.tag = "" ∨ b.tag ∈ w.model.tags) ∧
          (item.text = "" ∨ w.model.plugin.brand = item.text))) ∧
    (∀ brand : String,
      (ModuleBrowser.refresh lib scores { b with brand := brand }).brandList
        = (ModuleBrowser.refresh lib scores b).brandList) := by
  refine ⟨?_, ?_, ?_⟩
  · rw [refresh_brandList, List.map_map]
    rfl
  · intro item hitem
    rw [refresh_brandList] at hitem
    obtain ⟨item0, _, rfl⟩ := List.mem_map.mp hitem
    simp only [Bool.not_eq_false']
    rw [hasModel_refresh]
    constructor
    · rintro ⟨w, hw, h1, h2, h3⟩
      exact ⟨w, hw, h1, h3, h2⟩
    · rintro ⟨w, hw, h1, h2, h3⟩
      exact ⟨w, hw, h1, h3, h2⟩
  · intro brand
    rw [refresh_brandList, refresh_brandList]
    apply List.map_congr_left
    intro item _
    congr 2
    exact hasModel_refresh_congr lib scores { b with brand := brand } b rfl rfl item.text b.tag

/-- C4 (amended): `refresh` keeps the tag candidates and enables a candidate exactly
when some catalogue item passes the search-only filter, satisfies the current brand
filter and, unless the candidate text is empty, contains that text among its tags; an
empty candidate places no tag constraint.  The flags do not depend on the selected
tag. -/
theorem refresh_tag_enabled (lib : StringLib) (scores : FavoriteScores)
    (b : ModuleBrowser) :
    (ModuleBrowser.refresh lib scores b).tagList.map (fun item => item.text)
        = b.tagList.map (fun item => item.text) ∧
    (∀ item ∈ (ModuleBrowser.refresh lib scores b).tagList,
      (item.disabled = false ↔
        ∃ w ∈ b.children, isModelVisible lib w.model b.search "" "" = true ∧
          (b.brand = "" ∨ w.model.plugin.brand = b.brand) ∧
          (item.text = "" ∨ item.text ∈ w.model.tags))) ∧
    (∀ tag : String,
      (ModuleBrowser.refresh lib scores { b with tag := tag }).tagList
        = (ModuleBrowser.refresh lib scores b).tagList) := by
  refine ⟨?_, ?_, ?_⟩
  · rw [refresh_tagList, List.map_map]
    rfl
  · intro item hitem
    rw [refresh_tagList] at hitem
    obtain ⟨item0, _, rfl⟩ := List.mem_map.mp hitem
    simp only [Bool.not_eq_false']
    rw [hasModel_refresh]
  · intro tag
    rw [refresh_tagList, refresh_tagList]
    apply List.map_congr_left
    intro item _
    congr 2
    exact hasModel_refresh_congr lib scores { b with tag := tag } b rfl rfl b.brand item.text

/-! ## Facet availability: worked examples -/

theorem facetExample_brandList :
    (ModuleBrowser.refresh exampleLib [] facetExample).brandList
      = [⟨"A", false⟩, ⟨"B", true⟩, ⟨"C", false⟩] := by
  simp [ModuleBrowser.refresh, facetExample, listSort, sortLess, get_default, mapFind, hasModel,
    isModelVisible, tagFound, modelScore]
  decide

theorem acmeExample_tagList :
    (ModuleBrowser.refresh exampleLib [] acmeExample).tagList
      = [⟨"filter", false⟩, ⟨"oscillator", false⟩] := by
  simp [ModuleBrowser.refresh, acmeExample, listSort, sortLess, get_default, mapFind, hasModel,
    isModelVisible, tagFound, modelScore]
  decide

theorem emptyBrandExample_brandList :
    (ModuleBrowser.refresh exampleLib [] emptyBrandExample).brandList = [⟨"", false⟩, ⟨"X", false⟩] := by
  simp [ModuleBrowser.refresh, emptyBrandExample, listSort, sortLess, get_default, mapFind, hasModel,
    isModelVisible, tagFound, modelScore]
  decide

theorem emptyTagExample_tagList :
    (ModuleBrowser.refresh exampleLib [] emptyTagExample).tagList = [⟨"", false⟩, ⟨"t1", false⟩] := by
  decide

/-- C3 as stated fails for a candidate with empty text: in `emptyBrandExample` the
candidate with empty text is enabled by `refresh`, although no item that carries the
selected tag has the empty string as publisher brand. -/
theorem refresh_brand_enabled_fails_on_empty :
    (∃ item ∈ (ModuleBrowser.refresh exampleLib [] emptyBrandExample).brandList,
      item.text = "" ∧ item.disabled = false) ∧
    ¬ ∃ w ∈ emptyBrandExample.children,
        isModelVisible exampleLib w.model emptyBrandExample.search "" "" = true ∧
        (emptyBrandExample.tag = "" ∨ emptyBrandExample.tag ∈ w.model.tags) ∧
        w.model.plugin.brand = "" := by
  constructor
  · rw [emptyBrandExample_brandList]
    exact ⟨⟨"", false⟩, by simp, rfl, rfl⟩
  · simp [emptyBrandExample]

/-- C3, worked example: with tag `tag1` selected in `facetExample`, brand `B` is disabled
while `A` and `C` are enabled, as `refresh_brand_enabled` predicts for `B`: no item
with tag `tag1` has brand `B`. -/
theorem refresh_brand_enabled_witness :
    (ModuleBrowser.refresh exampleLib [] facetExample).brandList
        = [⟨"A", false⟩, ⟨"B", true⟩, ⟨"C", false⟩] ∧
    ¬ ∃ w ∈ facetExample.children,
        isModelVisible exampleLib w.model facetExample.search "" "" = true ∧
        (facetExample.tag = "" ∨ facetExample.tag ∈ w.model.tags) ∧
        (("B" : String) = "" ∨ w.model.plugin.brand = "B") := by
  refine ⟨facetExample_brandList, fun h => ?_⟩
  have hmem : (⟨"B", true⟩ : BrandItem) ∈ (ModuleBrowser.refresh exampleLib [] facetExample).brandList := by
    rw [facetExample_brandList]; simp
  have hd := ((refresh_brand_enabled exampleLib [] facetExample).2.1 ⟨"B", true⟩ hmem).mpr h
  exact Bool.noConfusion hd

/-- C4 as stated fails for a candidate with empty text: in `emptyTagExample` the
candidate with empty text is enabled by `refresh`, although no item has the empty
string among its tags. -/
theorem refresh_tag_enabled_fails_on_empty :
    (∃ item ∈ (ModuleBrowser.refresh exampleLib [] emptyTagExample).tagList,
      item.text = "" ∧ item.disabled = false) ∧
    ¬ ∃ w ∈ emptyTagExample.children,
        isModelVisible exampleLib w.model emptyTagExample.search "" "" = true ∧
        (emptyTagExample.brand = "" ∨ w.model.plugin.brand = emptyTagExample.brand) ∧
        ("" : String) ∈ w.model.tags := by
  constructor
  · rw [emptyTagExample_tagList]
    exact ⟨⟨"", false⟩, by simp, rfl, rfl⟩
  · simp [emptyTagExample]

/-- C4, worked example: in `acmeExample` (tag `filter` selected, no search, no brand)
the tag candidate `oscillator` is enabled, as `refresh_tag_enabled` predicts: the item
`acme-vco` carries it. -/
theorem refresh_tag_enabled_witness :
    (ModuleBrowser.refresh exampleLib [] acmeExample).tagList
        = [⟨"filter", false⟩, ⟨"oscillator", false⟩] ∧
    ∃ w ∈ acmeExample.children,
        isModelVisible exampleLib w.model acmeExample.search "" "" = true ∧
        (acmeExample.brand = "" ∨ w.model.plugin.brand = acmeExample.brand) ∧
        (("oscillator" : String) = "" ∨ "oscillator" ∈ w.model.tags) := by
  refine ⟨acmeExample_tagList, ?_⟩
  have hmem : (⟨"oscillator", false⟩ : TagItem) ∈ (ModuleBrowser.refresh exampleLib [] acmeExample).tagList := by
    rw [acmeExample_tagList]; simp
  exact ((refresh_tag_enabled exampleLib [] acmeExample).2.1 ⟨"oscillator", false⟩ hmem).mp rfl

/-! ## Brand toggle -/

theorem BrandItem.onAction_brand (lib : StringLib) (scores : FavoriteScores)
    (item : BrandItem) (b : ModuleBrowser) :
    (item.onAction lib scores b).brand = (if b.brand = item.text then "" else item.text) := by
  unfold BrandItem.onAction
  by_cases h : b.brand = item.text
  · rw [if_pos h, if_pos h]; rfl
  · rw [if_neg h, if_neg h]; rfl

theorem BrandItem.onAction_search_tag (lib : StringLib) (scores : FavoriteScores)
    (item : BrandItem) (b : ModuleBrowser) :
    (item.onAction lib scores b).search = b.search ∧
    (item.onAction lib scores b).tag = b.tag := by
  unfold BrandItem.onAction
  by_cases h : b.brand = item.text
  · rw [if_pos h]; exact ⟨rfl, rfl⟩
  · rw [if_neg h]; exact ⟨rfl, rfl⟩

/-- C8: from a state whose brand selection is empty, two actions of the same brand item
leave the brand selection empty and the search text and tag selection unchanged; one
action sets the brand to the item's text when the current brand differs from it and
clears the brand when the current brand equals it. -/
theorem brandToggle_twice (lib : StringLib) (scores : FavoriteScores) (item : BrandItem)
    (b : ModuleBrowser) (hb : b.brand = "") :
    (item.onAction lib scores (item.onAction lib scores b)).brand = "" ∧
    (item.onAction lib scores (item.onAction lib scores b)).search = b.search ∧
    (item.onAction lib scores (item.onAction lib scores b)).tag = b.tag ∧
    (∀ c : ModuleBrowser, c.brand ≠ item.text →
      (item.onAction lib scores c).brand = item.text) ∧
    (∀ c : ModuleBrowser, c.brand = item.text → (item.onAction lib scores c).brand = "") := by
  refine ⟨?_, ?_, ?_, ?_, ?_⟩
  · rw [BrandItem.onAction_brand, BrandItem.onAction_brand, hb]
    by_cases h : ("" : String) = item.text
    · simp [h]
    · simp [h]
  · rw [(BrandItem.onAction_search_tag lib scores item _).1,
      (BrandItem.onAction_search_tag lib scores item b).1]
  · rw [(BrandItem.onAction_search_tag lib scores item _).2,
      (BrandItem.onAction_search_tag lib scores item b).2]
  · intro c hc
    rw [BrandItem.onAction_brand, if_neg hc]
  · intro c hc
    rw [BrandItem.onAction_brand, if_pos hc]

/-- C8, worked example: the action of the brand item `Acme`, taken twice in
`acmeExample`, whose brand selection is empty, selects `Acme` and then clears the
selection again. -/
theorem brandToggle_twice_witness :
    acmeExample.brand = "" ∧
    (BrandItem.onAction exampleLib [] ⟨"Acme", false⟩ acmeExample).brand = "Acme" ∧
    (BrandItem.onAction exampleLib [] ⟨"Acme", false⟩
      (BrandItem.onAction exampleLib [] ⟨"Acme", false⟩ acmeExample)).brand = "" := by
  have h := brandToggle_twice exampleLib [] ⟨"Acme", false⟩ acmeExample rfl
  exact ⟨rfl, h.2.2.2.1 acmeExample (by decide), h.1⟩

/-! ## Rounding -/

theorem floor_le_roundHalfEven (x : ℚ) : ⌊x⌋ ≤ roundHalfEven x := by
  unfold roundHalfEven
  simp only
  split_ifs <;> omega

theorem roundHalfEven_eq_of_near (x : ℚ) (n : ℤ) (h : |x - n| < 1 / 2) :
    roundHalfEven x = n := by
  rw [abs_lt] at h
  obtain ⟨h1, h2⟩ := h
  unfold roundHalfEven
  simp only
  by_cases hx : (n : ℚ) ≤ x
  · have hf : ⌊x⌋ = n := by
      rw [Int.floor_eq_iff]
      constructor
      · exact hx
      · linarith
    rw [hf, if_pos (by linarith)]
  · push_neg at hx
    have hf : ⌊x⌋ = n - 1 := by
      rw [Int.floor_eq_iff]
      push_cast
      constructor <;> linarith
    rw [hf]
    push_cast
    rw [if_neg (by linarith), if_pos (by linarith)]
    ring

theorem intLog_eq (q : ℚ) (e : ℤ) (h1 : (2 : ℚ) ^ e ≤ q) (h2 : q < (2 : ℚ) ^ (e + 1)) :
    Int.log 2 q = e := by
  have hq : 0 < q := lt_of_lt_of_le (by positivity) h1
  apply le_antisymm
  · have := (Int.lt_zpow_iff_log_lt (b := 2) (by norm_num) hq (x := e + 1)).mp
      (by exact_mod_cast h2)
    omega
  · exact (Int.zpow_le_iff_le_log (b := 2) (by norm_num) hq).mp (by exact_mod_cast h1)

/-- Evaluation of `roundBinary` at a positive value whose binade and nearest
significand are given. -/
theorem roundBinary_eq (prec : ℕ) (emin : ℤ) (q : ℚ) (e n : ℤ)
    (h1 : (2 : ℚ) ^ e ≤ q) (h2 : q < (2 : ℚ) ^ (e + 1)) (hmin : emin ≤ e)
    (hn : |q / (2 : ℚ) ^ (e - ((prec : ℤ) - 1)) - n| < 1 / 2) :
    roundBinary prec emin q = n * (2 : ℚ) ^ (e - ((prec : ℤ) - 1)) := by
  have hq : 0 < q := lt_of_lt_of_le (by positivity) h1
  unfold roundBinary
  rw [if_neg (ne_of_gt hq)]
  simp only
  rw [abs_of_pos hq, intLog_eq q e h1 h2, max_eq_left hmin, roundHalfEven_eq_of_near _ n hn]

theorem roundBinary_nonneg (prec : ℕ) (emin : ℤ) (q : ℚ) (hq : 0 ≤ q) :
    0 ≤ roundBinary prec emin q := by
  unfold roundBinary
  split_ifs with h0
  · exact le_refl 0
  · simp only
    apply mul_nonneg
    · have hx : (0 : ℚ) ≤ q / 2 ^ (max (Int.log 2 |q|) emin - ((prec : ℤ) - 1)) :=
        div_nonneg hq (by positivity)
      have hf : (0 : ℤ) ≤ ⌊q / (2 : ℚ) ^ (max (Int.log 2 |q|) emin - ((prec : ℤ) - 1))⌋ :=
        Int.floor_nonneg.mpr hx
      exact_mod_cast le_trans hf (floor_le_roundHalfEven _)
    · positivity

theorem roundBinary_one_le (prec : ℕ) (emin : ℤ) (hprec : 1 ≤ prec) (hmin : emin ≤ 0)
    (q : ℚ) (hq : 1 ≤ q) : 1 ≤ roundBinary prec emin q := by
  have hpos : 0 < q := lt_of_lt_of_le one_pos hq
  unfold roundBinary
  rw [if_neg (ne_of_gt hpos)]
  simp only
  rw [abs_of_pos hpos]
  have hlog : 0 ≤ Int.log 2 q :=
    (Int.zpow_le_iff_le_log (b := 2) (by norm_num) hpos).mp (by simpa using hq)
  rw [max_eq_left (le_trans hmin hlog)]
  set e := Int.log 2 q with he
  have hle : (2 : ℚ) ^ e ≤ q := by
    have := Int.zpow_log_le_self (b := 2) (r := q) (by norm_num) hpos
    exact_mod_cast this
  have hp : (0 : ℤ) ≤ (prec : ℤ) - 1 := by omega
  -- the scaled value is at least `2 ^ (prec - 1)`, an integer
  have hscaled : ((2 ^ (prec - 1) : ℤ) : ℚ) ≤ q / (2 : ℚ) ^ (e - ((prec : ℤ) - 1)) := by
    rw [le_div_iff₀ (by positivity)]
    have : ((2 ^ (prec - 1) : ℤ) : ℚ) * (2 : ℚ) ^ (e - ((prec : ℤ) - 1)) = (2 : ℚ) ^ e := by
      push_cast
      rw [← zpow_natCast, ← zpow_add₀ (by norm_num : (2 : ℚ) ≠ 0)]
      congr 1
      have : ((prec - 1 : ℕ) : ℤ) = (prec : ℤ) - 1 := by omega
      omega
    rw [this]
    exact hle
  have hfloor : (2 ^ (prec - 1) : ℤ) ≤ ⌊q / (2 : ℚ) ^ (e - ((prec : ℤ) - 1))⌋ :=
    Int.le_floor.mpr hscaled
  have hround : ((2 ^ (prec - 1) : ℤ) : ℚ)
      ≤ (roundHalfEven (q / (2 : ℚ) ^ (e - ((prec : ℤ) - 1))) : ℚ) := by
    exact_mod_cast le_trans hfloor (floor_le_roundHalfEven _)
  calc (1 : ℚ) ≤ (2 : ℚ) ^ e := by
        exact one_le_zpow₀ (by norm_num) hlog
    _ = ((2 ^ (prec - 1) : ℤ) : ℚ) * (2 : ℚ) ^ (e - ((prec : ℤ) - 1)) := by
        push_cast
        rw [← zpow_natCast, ← zpow_add₀ (by norm_num : (2 : ℚ) ≠ 0)]
        congr 1
        have : ((prec - 1 : ℕ) : ℤ) = (prec : ℤ) - 1 := by omega
        omega
    _ ≤ _ := mul_le_mul_of_nonneg_right hround (by positivity)

theorem roundF32_nonneg (q : ℚ) (hq : 0 ≤ q) : 0 ≤ roundF32 q :=
  roundBinary_nonneg 24 (-126) q hq

theorem roundF32_one_le (q : ℚ) (hq : 1 ≤ q) : 1 ≤ roundF32 q :=
  roundBinary_one_le 24 (-126) (by norm_num) (by norm_num) q hq

theorem roundF32_one : roundF32 1 = 1 := by
  have h := roundBinary_eq 24 (-126) 1 0 (2 ^ 23) (by norm_num) (by norm_num) (by norm_num)
    (by norm_num)
  rw [roundF32, h]
  norm_num

theorem roundF64_tenth : roundF64 (1 / 10) = 3602879701896397 / 36028797018963968 := by
  have h := roundBinary_eq 53 (-1022) (1 / 10) (-4) 7205759403792794 (by norm_num)
    (by norm_num) (by norm_num) (by rw [abs_lt]; constructor <;> norm_num)
  rw [roundF64, h]
  norm_num

theorem decayLambda_eq : decayLambda = 13421773 / 134217728 := by
  have h := roundBinary_eq 24 (-126) (3602879701896397 / 36028797018963968) (-4) 13421773
    (by norm_num) (by norm_num) (by norm_num) (by rw [abs_lt]; constructor <;> norm_num)
  rw [decayLambda, roundF64_tenth, roundF32, h]
  norm_num

theorem decayFactor_eq : decayFactor = 7549747 / 8388608 := by
  have h := roundBinary_eq 24 (-126) (1 - 13421773 / 134217728) (-1) 15099494
    (by norm_num) (by norm_num) (by norm_num) (by rw [abs_lt]; constructor <;> norm_num)
  rw [decayFactor, decayLambda_eq, roundF32, h]
  norm_num

theorem roundF32_nineTenths : roundF32 (9 / 10) = 7549747 / 8388608 := by
  have h := roundBinary_eq 24 (-126) (9 / 10) (-1) 15099494
    (by norm_num) (by norm_num) (by norm_num) (by rw [abs_lt]; constructor <;> norm_num)
  rw [roundF32, h]
  norm_num

theorem roundF32_decayFactor : roundF32 (7549747 / 8388608) = 7549747 / 8388608 := by
  have h := roundBinary_eq 24 (-126) (7549747 / 8388608) (-1) 15099494
    (by norm_num) (by norm_num) (by norm_num) (by rw [abs_lt]; constructor <;> norm_num)
  rw [roundF32, h]
  norm_num

theorem roundHalfEven_tie_even (n : ℤ) (hn : n % 2 = 0) :
    roundHalfEven ((n : ℚ) + 1 / 2) = n := by
  have hf : ⌊(n : ℚ) + 1 / 2⌋ = n := by
    rw [Int.floor_eq_iff]
    constructor <;> linarith
  unfold roundHalfEven
  simp only
  rw [hf, if_neg (by norm_num), if_neg (by norm_num), if_pos hn]

/-- Evaluation of `roundBinary` at a positive value whose binade is given, from the
rounding of the scaled value. -/
theorem roundBinary_eq_of_round (prec : ℕ) (emin : ℤ) (q : ℚ) (e n : ℤ)
    (h1 : (2 : ℚ) ^ e ≤ q) (h2 : q < (2 : ℚ) ^ (e + 1)) (hmin : emin ≤ e)
    (hn : roundHalfEven (q / (2 : ℚ) ^ (e - ((prec : ℤ) - 1))) = n) :
    roundBinary prec emin q = n * (2 : ℚ) ^ (e - ((prec : ℤ) - 1)) := by
  have hq : 0 < q := lt_of_lt_of_le (by positivity) h1
  unfold roundBinary
  rw [if_neg (ne_of_gt hq)]
  simp only
  rw [abs_of_pos hq, intLog_eq q e h1 h2, max_eq_left hmin, hn]

/-- The decayed value is the rounded product with the `float` constant, which is not
always the `float` nearest to nine tenths of the prior score: at the prior score 3 the
product `3 * decayFactor` lies half-way between two `float` values and rounds to
`2831155 / 1048576`, while `9 / 10 * 3` rounds to `11324621 / 4194304`. -/
theorem decay_of_three :
    roundF32 (3 * decayFactor) = 2831155 / 1048576 ∧
    roundF32 (9 / 10 * 3) = 11324621 / 4194304 ∧
    (2831155 / 1048576 : ℚ) ≠ 11324621 / 4194304 := by
  refine ⟨?_, ?_, by norm_num⟩
  · have hx : (3 * (7549747 / 8388608) : ℚ) / (2 : ℚ) ^ ((1 : ℤ) - (((24 : ℕ) : ℤ) - 1))
        = ((11324620 : ℤ) : ℚ) + 1 / 2 := by norm_num
    have h := roundBinary_eq_of_round 24 (-126) (3 * (7549747 / 8388608)) 1 11324620
      (by norm_num) (by norm_num) (by norm_num)
      (by rw [hx]; exact roundHalfEven_tie_even 11324620 (by decide))
    rw [decayFactor_eq, roundF32, h]
    norm_num
  · have h := roundBinary_eq 24 (-126) (9 / 10 * 3) 1 11324621
      (by norm_num) (by norm_num) (by norm_num) (by rw [abs_lt]; constructor <;> norm_num)
    rw [roundF32, h]
    norm_num

theorem decayFactor_nonneg : 0 ≤ decayFactor := by
  rw [decayFactor_eq]; norm_num

/-! ## Favourite scores: the table after a selection -/

theorem mapFind_map_snd {K : Type} [DecidableEq K] (f : ℚ → ℚ) (k : K) (m : List (K × ℚ)) :
    mapFind k (m.map (fun it => (it.1, f it.2))) = (mapFind k m).map f := by
  induction m with
  | nil => rfl
  | cons e rest ih =>
    simp only [List.map_cons, mapFind]
    split_ifs
    · rfl
    · exact ih

theorem mapFind_mapIndexAdd {K : Type} [DecidableEq K] (key k : K) (x : ℚ)
    (m : List (K × ℚ)) :
    mapFind k (mapIndexAdd key x m)
      = if k = key then some (roundF32 ((mapFind key m).getD 0 + x)) else mapFind k m := by
  induction m with
  | nil =>
    by_cases h : k = key
    · subst h; simp [mapIndexAdd, mapFind]
    · have h2 : ¬ key = k := fun e => h e.symm
      simp [mapIndexAdd, mapFind, h, h2]
  | cons e rest ih =>
    by_cases he : e.1 = key
    · by_cases h : k = key
      · subst h; simp [mapIndexAdd, mapFind, he]
      · have h2 : ¬ key = k := fun e2 => h e2.symm
        simp [mapIndexAdd, mapFind, he, h, h2]
    · by_cases h : k = key
      · subst h
        simp [mapIndexAdd, mapFind, he, ih]
      · simp [mapIndexAdd, mapFind, he, ih, h]

theorem keys_mapIndexAdd {K : Type} [DecidableEq K] (key : K) (x : ℚ) (m : List (K × ℚ)) :
    (key ∈ m.map Prod.fst → (mapIndexAdd key x m).map Prod.fst = m.map Prod.fst) ∧
    (key ∉ m.map Prod.fst → (mapIndexAdd key x m).map Prod.fst = m.map Prod.fst ++ [key]) := by
  induction m with
  | nil => simp [mapIndexAdd]
  | cons e rest ih =>
    by_cases he : e.1 = key
    · simp [mapIndexAdd, he]
    · have h2 : ¬ key = e.1 := fun e2 => he e2.symm
      simp only [mapIndexAdd, he, if_false, List.map_cons, List.mem_cons, h2, false_or,
        List.cons_append, List.cons.injEq, true_and]
      exact ih

/-- The table after `stepFavoriteScore`, read with the embedded `std::map::find`. -/
theorem stepFavoriteScore_mapFind (scores : FavoriteScores) (plugin model : String) :
    (∀ k : FavoriteKey, k ≠ (plugin, model) →
      mapFind k (stepFavoriteScore scores plugin model)
        = (mapFind k scores).map (fun prior => roundF32 (prior * decayFactor))) ∧
    mapFind (plugin, model) (stepFavoriteScore scores plugin model)
      = some (match mapFind (plugin, model) scores with
          | some prior => roundF32 (roundF32 (prior * decayFactor) + 1)
          | none => 1) ∧
    ((plugin, model) ∈ scores.map Prod.fst →
      (stepFavoriteScore scores plugin model).map Prod.fst = scores.map Prod.fst) ∧
    ((plugin, model) ∉ scores.map Prod.fst →
      (stepFavoriteScore scores plugin model).map Prod.fst
        = scores.map Prod.fst ++ [(plugin, model)]) ∧
    decayFactor = 7549747 / 8388608 ∧ decayFactor = roundF32 (9 / 10) := by
  have hk : (scores.map (fun it => (it.1, roundF32 (it.2 * decayFactor)))).map Prod.fst
      = scores.map Prod.fst := by
    rw [List.map_map]; rfl
  have hkeys := keys_mapIndexAdd (plugin, model) 1
    (scores.map (fun it => (it.1, roundF32 (it.2 * decayFactor))))
  rw [hk] at hkeys
  refine ⟨?_, ?_, hkeys.1, hkeys.2, decayFactor_eq,
    decayFactor_eq.trans roundF32_nineTenths.symm⟩
  · intro k hk
    unfold stepFavoriteScore
    simp only
    rw [mapFind_mapIndexAdd, if_neg hk,
      mapFind_map_snd (fun prior => roundF32 (prior * decayFactor))]
  · unfold stepFavoriteScore
    simp only
    rw [mapFind_mapIndexAdd, if_pos rfl,
      mapFind_map_snd (fun prior => roundF32 (prior * decayFactor))]
    cases mapFind (plugin, model) scores with
    | none => simp [roundF32_one]
    | some prior => simp

/-- C2 (amended): after `stepFavoriteScore` every key other than the selected one
holds the `float` product of its prior score and the `float` constant `1 - 0.1f`
(which is `7549747 / 8388608`, the `float` nearest to 0.9): the exact product of the
two, rounded once to `float`; a key without entry stays without entry.  The selected
key holds that decayed value plus 1, rounded to `float`, and exactly 1 when it had no
entry.  The keys are the old ones together with the selected key.  Entries are read
with the library lookup `List.lookup`. -/
theorem stepFavoriteScore_spec (scores : FavoriteScores) (plugin model : String) :
    (∀ k : FavoriteKey, k ≠ (plugin, model) →
      List.lookup k (stepFavoriteScore scores plugin model)
        = (List.lookup k scores).map (fun prior => roundF32 (prior * decayFactor))) ∧
    List.lookup (plugin, model) (stepFavoriteScore scores plugin model)
      = some (match List.lookup (plugin, model) scores with
          | some prior => roundF32 (roundF32 (prior * decayFactor) + 1)
          | none => 1) ∧
    ((plugin, model) ∈ scores.map Prod.fst →
      (stepFavoriteScore scores plugin model).map Prod.fst = scores.map Prod.fst) ∧
    ((plugin, model) ∉ scores.map Prod.fst →
      (stepFavoriteScore scores plugin model).map Prod.fst
        = scores.map Prod.fst ++ [(plugin, model)]) ∧
    decayFactor = 7549747 / 8388608 ∧ decayFactor = roundF32 (9 / 10) := by
  have h := stepFavoriteScore_mapFind scores plugin model
  simp only [mapFind_eq_lookup] at h
  exact h

/-- C2 as stated fails: after selecting `p/m` and then `q/n` from the empty table, the
entry of `p/m`, which was 1, is the `float` `7549747 / 8388608`, not `0.9 * 1`. -/
theorem stepFavoriteScore_decay_not_exact :
    mapFind (("p", "m") : FavoriteKey) (stepFavoriteScore [] "p" "m") = some 1 ∧
    mapFind (("p", "m") : FavoriteKey)
        (stepFavoriteScore (stepFavoriteScore [] "p" "m") "q" "n")
      = some (7549747 / 8388608) ∧
    (7549747 / 8388608 : ℚ) ≠ 9 / 10 * 1 := by
  have h1 : stepFavoriteScore [] "p" "m" = [(("p", "m"), 1)] := by
    simp [stepFavoriteScore, mapIndexAdd, roundF32_one]
  refine ⟨?_, ?_, by norm_num⟩
  · rw [h1]; simp [mapFind]
  · rw [h1]
    simp [stepFavoriteScore, mapIndexAdd, mapFind, decayFactor_eq, roundF32_decayFactor]

/-- C2, worked example: selecting `q/n` in the table that holds `p/m` at 1 leaves `p/m`
at `roundF32 (1 * decayFactor)`, creates `q/n` at exactly 1 and adds no other key. -/
theorem stepFavoriteScore_spec_witness :
    (("p", "m") : FavoriteKey) ≠ ("q", "n") ∧
    List.lookup (("p", "m") : FavoriteKey) (stepFavoriteScore [(("p", "m"), 1)] "q" "n")
      = some (roundF32 (1 * decayFactor)) ∧
    List.lookup (("q", "n") : FavoriteKey) (stepFavoriteScore [(("p", "m"), 1)] "q" "n")
      = some 1 ∧
    (stepFavoriteScore [(("p", "m"), 1)] "q" "n").map Prod.fst = [("p", "m"), ("q", "n")] := by
  have h := stepFavoriteScore_spec [(("p", "m"), 1)] "q" "n"
  refine ⟨by decide, ?_, ?_, ?_⟩
  · exact h.1 ("p", "m") (by decide)
  · exact h.2.1
  · exact h.2.2.2.1 (by decide)

/-! ## Favourite scores: non-negativity -/

theorem mapIndexAdd_nonneg {K : Type} [DecidableEq K] (key : K) (m : List (K × ℚ))
    (h : ∀ e ∈ m, 0 ≤ e.2) : ∀ e ∈ mapIndexAdd key 1 m, 0 ≤ e.2 := by
  induction m with
  | nil =>
    intro e he
    simp only [mapIndexAdd, List.mem_singleton] at he
    rw [he]
    exact roundF32_nonneg _ (by norm_num)
  | cons a rest ih =>
    have ha : 0 ≤ a.2 := h a (List.mem_cons_self _ _)
    have hrest : ∀ e ∈ rest, 0 ≤ e.2 := fun e he => h e (List.mem_cons_of_mem _ he)
    intro e he
    unfold mapIndexAdd at he
    split_ifs at he with hk
    · rcases List.mem_cons.mp he with rfl | he'
      · exact roundF32_nonneg _ (by linarith)
      · exact hrest e he'
    · rcases List.mem_cons.mp he with rfl | he'
      · exact ha
      · exact ih hrest e he'

theorem mapFind_nonneg {K : Type} [DecidableEq K] (key : K) (m : List (K × ℚ))
    (h : ∀ e ∈ m, 0 ≤ e.2) : 0 ≤ (mapFind key m).getD 0 := by
  induction m with
  | nil => simp [mapFind]
  | cons a rest ih =>
    unfold mapFind
    split_ifs
    · exact h a (List.mem_cons_self _ _)
    · exact ih (fun e he => h e (List.mem_cons_of_mem _ he))

theorem decayed_nonneg (scores : FavoriteScores) (h : ∀ e ∈ scores, 0 ≤ e.2) :
    ∀ e ∈ scores.map (fun it => (it.1, roundF32 (it.2 * decayFactor))), 0 ≤ e.2 := by
  intro e he
  obtain ⟨a, ha, rfl⟩ := List.mem_map.mp he
  exact roundF32_nonneg _ (mul_nonneg (h a ha) decayFactor_nonneg)

theorem stepFavoriteScore_nonneg (scores : FavoriteScores) (plugin model : String)
    (h : ∀ e ∈ scores, 0 ≤ e.2) :
    ∀ e ∈ stepFavoriteScore scores plugin model, 0 ≤ e.2 :=
  mapIndexAdd_nonneg _ _ (decayed_nonneg scores h)

theorem stepFavoriteScore_selected_ge_one (scores : FavoriteScores) (plugin model : String)
    (h : ∀ e ∈ scores, 0 ≤ e.2) :
    ∃ v, mapFind (plugin, model) (stepFavoriteScore scores plugin model) = some v ∧ 1 ≤ v := by
  refine ⟨_, mapFind_mapIndexAdd _ _ _ _ |>.trans (if_pos rfl), ?_⟩
  apply roundF32_one_le
  have := mapFind_nonneg (plugin, model) _ (decayed_nonneg scores h)
  linarith

theorem foldl_stepFavoriteScore_nonneg (keys : List FavoriteKey) (scores : FavoriteScores)
    (h : ∀ e ∈ scores, 0 ≤ e.2) :
    ∀ e ∈ keys.foldl (fun t k => stepFavoriteScore t k.1 k.2) scores, 0 ≤ e.2 := by
  induction keys generalizing scores with
  | nil => exact h
  | cons k rest ih =>
    exact ih _ (stepFavoriteScore_nonneg scores k.1 k.2 h)

/-- C9: when every value of the favourite-score table is at least 0, then after
`stepFavoriteScore` every value is still at least 0 and the selected key's value is at
least 1; hence every table reached from such a table (in particular from the empty
one) by any sequence of selections has only values that are at least 0. -/
theorem stepFavoriteScore_preserves_nonneg (scores : FavoriteScores)
    (plugin model : String) (h : ∀ e ∈ scores, 0 ≤ e.2) :
    (∀ e ∈ stepFavoriteScore scores plugin model, 0 ≤ e.2) ∧
    (∃ v, mapFind (plugin, model) (stepFavoriteScore scores plugin model) = some v ∧ 1 ≤ v) ∧
    (∀ keys : List FavoriteKey,
      ∀ e ∈ keys.foldl (fun t k => stepFavoriteScore t k.1 k.2) scores, 0 ≤ e.2) ∧
    (∀ keys : List FavoriteKey,
      ∀ e ∈ keys.foldl (fun t k => stepFavoriteScore t k.1 k.2) ([] : FavoriteScores),
        0 ≤ e.2) :=
  ⟨stepFavoriteScore_nonneg scores plugin model h,
    stepFavoriteScore_selected_ge_one scores plugin model h,
    fun keys => foldl_stepFavoriteScore_nonneg keys scores h,
    fun keys => foldl_stepFavoriteScore_nonneg keys [] (by simp)⟩

/-- C9, worked example: the table holding `p/m` at 1 has only non-negative values, and
so has the table after selecting `q/n`, whose entry `q/n` is at least 1. -/
theorem stepFavoriteScore_preserves_nonneg_witness :
    (∀ e ∈ ([(("p", "m"), 1)] : FavoriteScores), 0 ≤ e.2) ∧
    (∀ e ∈ stepFavoriteScore [(("p", "m"), 1)] "q" "n", 0 ≤ e.2) ∧
    (∃ v, mapFind (("q", "n") : FavoriteKey) (stepFavoriteScore [(("p", "m"), 1)] "q" "n")
      = some v ∧ 1 ≤ v) := by
  have h0 : ∀ e ∈ ([(("p", "m"), 1)] : FavoriteScores), 0 ≤ e.2 := by
    intro e he
    simp only [List.mem_singleton] at he
    rw [he]
    norm_num
  have h := stepFavoriteScore_preserves_nonneg [(("p", "m"), 1)] "q" "n" h0
  exact ⟨h0, h.1, h.2.1⟩

/-! ## Scoring: worked example -/

/-- C10, worked example: for the item `acme-vco` the searchable text is
`Acme VCO acme-vco oscillator`, and the score of the query `vco` is the fuzzy score of
the lower-cased text against the lower-cased query. -/
theorem modelScore_spec_witness :
    ("vco" : String) ≠ "" ∧
    searchTextSpec acmeVco = "Acme VCO acme-vco oscillator" ∧
    modelScore exampleLib acmeVco "" = 1 ∧
    modelScore exampleLib acmeVco "vco"
      = exampleLib.fuzzyScore (exampleLib.lowercase "Acme VCO acme-vco oscillator")
          (exampleLib.lowercase "vco") := by
  have h := modelScore_spec exampleLib acmeVco "vco" (by decide)
  have ht : searchTextSpec acmeVco = "Acme VCO acme-vco oscillator" := by decide
  rw [ht] at h
  exact ⟨by decide, ht, h.1, h.2⟩

end Rack
